import Mathlib

/-!
Shallow embedding of `model_loader_ddbb_chat.py`, a natural-language-to-SQL
assistant: schema introspection, two remote-model calls, a read-only SQL
gate, execution, and result formatting.  Pure text manipulation is embedded
directly; the network and the MySQL connection are abstracted as explicit
oracles / state so that the control flow of the Python functions is kept
exactly (in particular the ORDER of `cursor.execute` and the `select`
prefix test in `ejecutar_sql`).
-/

/-- Whitespace predicate of Python on the ASCII range: the characters
stripped by `str.strip()` and matched by the regex class `\s`
(space, tab, newline, carriage return, vertical tab, form feed). -/
def pyIsSpace (c : Char) : Bool :=
  c = ' ' || c = '\t' || c = '\n' || c = '\r' || c = '\x0b' || c = '\x0c'

/-- List-level model of Python `str.strip()`: drop leading and trailing
whitespace. -/
def pyStrip (cs : List Char) : List Char :=
  ((cs.dropWhile pyIsSpace).reverse.dropWhile pyIsSpace).reverse

/-- String wrapper of `pyStrip` (Python `texto.strip()`). -/
def pyStripStr (s : String) : String := String.mk (pyStrip s.data)

/-- Model of Python `str.lower()` on the ASCII range (the program only
compares against the ASCII literals `"exit"` and `"select"`). -/
def pyLower (cs : List Char) : List Char := cs.map Char.toLower

/-- String wrapper of `pyLower`. -/
def pyLowerStr (s : String) : String := String.mk (pyLower s.data)

/-- One element of the Python `List[Any]` that `ejecutar_sql` returns: either
a row tuple from `cursor.fetchall()` (scalars modelled as integers; nothing
in the program depends on any other scalar type) or a sentinel/diagnostic
string.  The source reuses one untagged list for both shapes. -/
inductive Valor where
  | cadena (s : String)
  | fila (vs : List Int)
deriving DecidableEq, Repr

/-- Python `str` of a tuple of integers: `"(42,)"` for a singleton,
`"(1, 2)"` in general — the rendering an f-string applies to a row tuple
that `formatear_resultado` returned unchanged. -/
def pyStrTupla (vs : List Int) : String :=
  match vs with
  | [v] => "(" ++ toString v ++ ",)"
  | _ => "(" ++ String.intercalate ", " (vs.map toString) ++ ")"

/-- Python `str()` as an f-string (`print(f"Resultado:\n{resultado}\n")`)
applies it to a QueryResult element. -/
def Valor.mostrar : Valor → String
  | .cadena s => s
  | .fila vs => pyStrTupla vs

/-- Iterating one QueryResult element as `formatear_resultado`'s
comprehension does (`', '.join(str(v) for v in fila)`): a row tuple yields
its scalars, a string — being a Python iterable — yields its characters. -/
def Valor.elementos : Valor → List String
  | .fila vs => vs.map toString
  | .cadena s => s.data.map Char.toString

/-- Embedding of `formatear_resultado`: a list of exactly one element is
returned as that element itself (`resultado[0]`, NOT its string form);
otherwise a 1-indexed, newline-joined listing with comma-joined values per
row. -/
def formatear_resultado (resultado : List Valor) : Valor :=
  match resultado with
  | [x] => x
  | _ => Valor.cadena (String.intercalate "\n"
      ((resultado.enum).map
        (fun p => toString (p.1 + 1) ++ ". " ++ String.intercalate ", " p.2.elementos)))

/-- The read-only gate test of `ejecutar_sql`:
`consulta.strip().lower().startswith("select")`. -/
def esSelect (consulta : String) : Bool :=
  List.isPrefixOf "select".data (pyLower (pyStrip consulta.data))

/-- Outcome of the `cursor.execute(consulta)` / `cursor.fetchall()` pair as
seen by `ejecutar_sql`: either success together with the row list a
`fetchall` yields (ignored by the non-SELECT branch, which never calls
`fetchall`), or the description of the exception the calls raised. -/
inductive SalidaEjecucion where
  | filas (rs : List (List Int))
  | excepcion (e : String)
deriving DecidableEq, Repr

/-- Embedding of `ejecutar_sql`.  The database connection is abstract state
`σ`; `ejecutar` models submitting a statement to the connection, returning
the outcome and the connection state after the call.  Faithful to the
source's control flow: `cursor.execute(consulta)` runs BEFORE the
`select`-prefix test, so every statement reaches the connection; the
surrounding try/except is the `SalidaEjecucion.excepcion` branch, which
turns any raised error into a singleton sentinel instead of propagating. -/
def ejecutar_sql {σ : Type} (ejecutar : σ → String → SalidaEjecucion × σ)
    (conexion : σ) (consulta : String) : List Valor × σ :=
  match ejecutar conexion consulta with
  | (SalidaEjecucion.excepcion e, conexion') =>
      ([Valor.cadena ("Error al ejecutar la consulta SQL: " ++ e)], conexion')
  | (SalidaEjecucion.filas resultado, conexion') =>
      if esSelect consulta then
        if resultado.length = 0 then
          ([Valor.cadena "No se encontraron resultados."], conexion')
        else (resultado.map Valor.fila, conexion')
      else ([Valor.cadena "La consulta SQL debe ser un SELECT."], conexion')

/-- The `message` object of one element of `choices` in a chat-completions
response body, as the program consumes it (`choices[0].message.content`). -/
structure MensajeRespuesta where
  content : String
deriving DecidableEq, Repr

/-- One element of the `choices` list of a chat-completions response. -/
structure Eleccion where
  message : MensajeRespuesta
deriving DecidableEq, Repr

/-- A chat-completions response body as the program consumes it: the JSON
dict `{"choices": [{"message": {"content": ...}}]}`. -/
structure RespuestaChat where
  choices : List Eleccion
deriving DecidableEq, Repr

/-- Embedding of the `ModeloRemoto` wrapper class (its two fields). -/
structure ModeloRemoto where
  url_base : String
  nombre_modelo : String
deriving DecidableEq, Repr

/-- Failure modes of the one `requests.post` call inside
`ModeloRemoto.generar_respuesta`.  All four raise subclasses of
`requests.exceptions.RequestException` (`Timeout`; connection/transport
errors; `HTTPError` out of `raise_for_status()`; `JSONDecodeError` out of
`.json()`), so all four are caught by the two except-arms of the source.
The `descripcion` argument is the Python `str(e)` of the exception. -/
inductive FalloSolicitud where
  | timeout
  | errorTransporte (descripcion : String)
  | errorHttp (descripcion : String)
  | cuerpoInvalido (descripcion : String)
deriving DecidableEq, Repr

/-- Result of the HTTP exchange `requests.post(...)`, `raise_for_status()`,
`.json()`: either a parsed body or one of the failure modes. -/
inductive ResultadoSolicitud where
  | exito (cuerpo : RespuestaChat)
  | fallo (f : FalloSolicitud)
deriving DecidableEq, Repr

/-- Embedding of `ModeloRemoto.generar_respuesta`.  The network exchange is
abstracted into the `resultado` oracle; the function body is the source's
try/except: parsed body returned unmodified on success, a synthetic
response with a fixed localized string on `Timeout`, and a synthetic
response embedding `str(e)` on every other `RequestException`.  Totality of
this definition is the no-exception boundary of the component. -/
def ModeloRemoto.generar_respuesta (_m : ModeloRemoto)
    (resultado : ResultadoSolicitud) : RespuestaChat :=
  match resultado with
  | .exito cuerpo => cuerpo
  | .fallo .timeout =>
      ⟨[⟨⟨"Error: Tiempo de espera excedido al consultar el modelo remoto."⟩⟩]⟩
  | .fallo (.errorTransporte e) =>
      ⟨[⟨⟨"Error al consultar el modelo remoto: " ++ e⟩⟩]⟩
  | .fallo (.errorHttp e) =>
      ⟨[⟨⟨"Error al consultar el modelo remoto: " ++ e⟩⟩]⟩
  | .fallo (.cuerpoInvalido e) =>
      ⟨[⟨⟨"Error al consultar el modelo remoto: " ++ e⟩⟩]⟩

/-- One row of `information_schema.columns` with the four fields relevant to
the program's two catalog queries. -/
structure FilaColumna where
  table_schema : String
  table_name : String
  column_name : String
  data_type : String
deriving DecidableEq, Repr

/-- The MySQL catalog as the program queries it: the rows of
`information_schema.tables` (schema and table name) and of
`information_schema.columns`. -/
structure Catalogo where
  tablas : List (String × String)
  columnas : List FilaColumna
deriving DecidableEq, Repr

/-- The first catalog query of `obtener_descripcion_esquema`:
`SELECT table_name FROM information_schema.tables` — note: not filtered by
schema, so it lists the table of every database. -/
def consultaTablas (cat : Catalogo) : List String :=
  cat.tablas.map (fun t => t.2)

/-- The second catalog query:
`SELECT column_name, data_type FROM information_schema.columns WHERE
table_name = %s` — filtered by table name only, again not by schema. -/
def consultaColumnas (cat : Catalogo) (tabla : String) : List (String × String) :=
  (cat.columnas.filter (fun f => f.table_name == tabla)).map
    (fun f => (f.column_name, f.data_type))

/-- Embedding of `obtener_descripcion_esquema`, keeping the source's
accumulator style: start from the header line, then for each table append
the sub-header, one bullet per column, and a closing blank line. -/
def obtener_descripcion_esquema (cat : Catalogo) (base_datos : String) : String :=
  (consultaTablas cat).foldl
    (fun descripcion tabla =>
      ((consultaColumnas cat tabla).foldl
        (fun d ct => d ++ "  - " ++ ct.1 ++ " (" ++ ct.2 ++ ")\n")
        (descripcion ++ "Tabla: " ++ tabla ++ "\nColumnas:\n")) ++ "\n")
    ("Esquema de " ++ base_datos ++ ":\n")

/-- Lazy-group search for a Markdown pattern `D(.+?)D` of `limpiar_markdown`
(`re.sub` with a lazy one-or-more group): the opening delimiter having been
consumed, find the shortest non-empty group — whose characters, matched by
`.`, may not include a newline — followed by the closing delimiter `d`;
return the group and the text after the closing delimiter. -/
def findGroup (d : List Char) : List Char → List Char → Option (List Char × List Char)
  | [], _ => none
  | c :: rs, acc =>
    if c = '\n' then none
    else if d.isPrefixOf rs then some (acc ++ [c], rs.drop d.length)
    else findGroup d rs (acc ++ [c])

/-- One pass of `re.sub(r"D(.+?)D", r"\1", texto)` for one delimiter `D`
(each of the five Markdown patterns has this shape), written with fuel so
that the recursion is structural: at each position try to match; on a match
emit the group and continue right after the match (matches do not overlap);
otherwise emit one character and advance.  Fuel `cs.length` always
suffices, see `subMarkdown`. -/
def subMd (d : List Char) : Nat → List Char → List Char
  | 0, cs => cs
  | _ + 1, [] => []
  | fuel + 1, c :: rest =>
    if d.isPrefixOf (c :: rest) then
      match findGroup d ((c :: rest).drop d.length) [] with
      | some (g, rem) => g ++ subMd d fuel rem
      | none => c :: subMd d fuel rest
    else c :: subMd d fuel rest

/-- One full `re.sub` pass for the Markdown delimiter `d`. -/
def subMarkdown (d : List Char) (cs : List Char) : List Char := subMd d cs.length cs

/-- Embedding of `limpiar_markdown`: the five `re.sub` passes in source
order (`**`, `__`, `*`, `_`, backtick), then `str.strip()`. -/
def limpiar_markdown (texto : String) : String :=
  String.mk (pyStrip (subMarkdown ['`']
    (subMarkdown ['_']
      (subMarkdown ['*']
        (subMarkdown ['_', '_']
          (subMarkdown ['*', '*'] texto.data))))))

/-- The literal of the first alternative of `r"```sql\s*|\s*```"`. -/
def aperturaCerca : List Char := ['`', '`', '`', 's', 'q', 'l']

/-- The literal of the second alternative of `r"```sql\s*|\s*```"`. -/
def tresAcentos : List Char := ['`', '`', '`']

/-- Attempted match of the alternation `r"```sql\s*|\s*```"` anchored at the
head of `cs`, in `re.sub` order: the first alternative (literal `"```sql"`
then greedy `\s*`) wins when it matches, else the second (greedy `\s*` then
literal `"```"`; no whitespace character is a backtick, so the greedy run
never backtracks).  Returns the text right after the match. -/
def matchAlt (cs : List Char) : Option (List Char) :=
  if aperturaCerca.isPrefixOf cs then
    some ((cs.drop 6).dropWhile pyIsSpace)
  else
    let resto := cs.dropWhile pyIsSpace
    if tresAcentos.isPrefixOf resto then some (resto.drop 3) else none

/-- Fuel-based scanner of `re.sub(r"```sql\s*|\s*```", "", sql)`: replace
every non-overlapping leftmost match by the empty string (no alternative
matches the empty text, so the sub never stalls). -/
def fenceScanF : Nat → List Char → List Char
  | 0, cs => cs
  | _ + 1, [] => []
  | fuel + 1, c :: rest =>
    match matchAlt (c :: rest) with
    | some rem => fenceScanF fuel rem
    | none => c :: fenceScanF fuel rest

/-- One full pass of the code-fence `re.sub`; fuel `cs.length` always
suffices (`fenceScanF_fuel`). -/
def fenceScan (cs : List Char) : List Char := fenceScanF cs.length cs

/-- The post-processing of `generar_sql`: `sql = contenido.strip()` followed
by `re.sub(r"```sql\s*|\s*```", "", sql)`. -/
def postprocesar_sql (contenido : String) : String :=
  String.mk (fenceScan (pyStrip contenido.data))

/-- Embedding of `generar_sql`'s handling of the model's reply: extract
`respuesta["choices"][0]["message"]["content"]` (`none` models the index
error a body without choices would raise) and post-process it. -/
def generar_sql (respuesta : RespuestaChat) : Option String :=
  respuesta.choices.head?.map (fun e => postprocesar_sql e.message.content)

/-- Observable outcome of one iteration of the `main` while-loop: whether
the loop breaks, the lines printed during the iteration, and how many
remote-model calls the iteration consumed. -/
structure ResultadoCiclo where
  detener : Bool
  impresiones : List String
  llamadasModelo : Nat
deriving DecidableEq, Repr

/-- Embedding of one iteration of the `main` loop.  Oracles stand for the
session's externals: `contenidoSql` is the content string the remote model
returns for the SQL prompt, `ejecutar` is `ejecutar_sql` on the session
connection as a function of the submitted statement, and
`contenidoRespuesta` is the content returned for the answer prompt;
`entrada` is the raw line `input()` read.  Faithful to the source order:
strip, exit test (case-folded), blank test, SQL synthesis, the
`if not sql: ... continue` branch, then execution, formatting and the
natural-language answer, with the three `print` reports. -/
def ciclo (contenidoSql : String) (ejecutar : String → List Valor)
    (contenidoRespuesta : String) (entrada : String) : ResultadoCiclo :=
  let pregunta := pyStripStr entrada
  if pyLowerStr pregunta = "exit" then ⟨true, [], 0⟩
  else if pregunta = "" then ⟨false, ["Pregunta vacía."], 0⟩
  else
    let sql := postprocesar_sql contenidoSql
    if sql = "" then ⟨false, [], 1⟩
    else
      let resultado := formatear_resultado (ejecutar sql)
      let respuesta := limpiar_markdown contenidoRespuesta
      ⟨false,
        ["\nSQL Generado:\n" ++ sql ++ "\n",
         "Resultado:\n" ++ resultado.mostrar ++ "\n",
         "Respuesta:\n" ++ respuesta ++ "\n"], 2⟩

/-- Concatenation of a list of strings; used to state the rendered form of
the schema description declaratively, against the accumulator-style
definition above. -/
def unir : List String → String
  | [] => ""
  | s :: l => s ++ unir l

/-- Concrete connection-state model for the mutating-statement scenario:
the state is the row list of a `users` table; submitting
`"DELETE FROM users;"` to the connection succeeds and empties the table,
and any other statement leaves it unchanged. -/
def ejecucionBorrado : List (List Int) → String → SalidaEjecucion × List (List Int) :=
  fun tabla consulta =>
    if consulta = "DELETE FROM users;" then (SalidaEjecucion.filas [], [])
    else (SalidaEjecucion.filas tabla, tabla)

/-- Helper: a string with a non-empty left part is non-empty. -/
theorem cadena_append_ne_vacia (s e : String) (h : s.data ≠ []) : s ++ e ≠ "" := by
  intro hc
  have h2 := congrArg String.data hc
  rw [String.data_append] at h2
  exact h (List.append_eq_nil.mp h2).1

/-- C10: on the empty result sequence `formatear_resultado` takes the
multi-row branch and joins zero lines, returning the empty string. -/
theorem formatear_resultado_vacio : formatear_resultado [] = Valor.cadena "" := rfl

/-- C2 counterexample: on the one-row one-column result `[(42,)]`,
`formatear_resultado` returns the tuple itself; the f-string that prints it
renders `"(42,)"`, not the claimed string `"42"`. -/
theorem formatear_resultado_tupla_contraejemplo :
    formatear_resultado [Valor.fila [42]] = Valor.fila [42] ∧
    (formatear_resultado [Valor.fila [42]]).mostrar = "(42,)" ∧
    ("(42,)" : String) ≠ "42" := by
  refine ⟨rfl, ?_, ?_⟩ <;> decide

/-- C2 amended: for every singleton result `[v]`, `formatear_resultado`
returns the element `v` itself unchanged — the very string when `v` is a
sentinel message, the raw row tuple when `v` is a data row. -/
theorem formatear_resultado_singular (v : Valor) : formatear_resultado [v] = v := rfl

/-- C3: for every failure mode of the HTTP request, `generar_respuesta`
returns a well-formed response whose single choice carries a non-empty
content string (and the embedding is total: no exception escapes the
component), and on timeout that content is the fixed localized timeout
message. -/
theorem generar_respuesta_fallo_bien_formado (m : ModeloRemoto) :
    (∀ f : FalloSolicitud, ∃ c : String,
        (m.generar_respuesta (ResultadoSolicitud.fallo f)).choices.map
          (fun el => el.message.content) = [c] ∧ c ≠ "") ∧
    (m.generar_respuesta (ResultadoSolicitud.fallo FalloSolicitud.timeout)).choices.map
        (fun el => el.message.content) =
      ["Error: Tiempo de espera excedido al consultar el modelo remoto."] := by
  refine ⟨?_, rfl⟩
  intro f
  cases f with
  | timeout => exact ⟨_, rfl, by decide⟩
  | errorTransporte e => exact ⟨_, rfl, cadena_append_ne_vacia _ e (by decide)⟩
  | errorHttp e => exact ⟨_, rfl, cadena_append_ne_vacia _ e (by decide)⟩
  | cuerpoInvalido e => exact ⟨_, rfl, cadena_append_ne_vacia _ e (by decide)⟩

/-- C6: contract of `ejecutar_sql` for a statement accepted by the
read-only gate: an execution error is caught and becomes a singleton
sentinel embedding the error description (the embedding is total, so
nothing propagates to the caller); zero rows become the fixed "no results"
sentinel; one or more rows are returned unmodified. -/
theorem ejecutar_sql_select_contrato {σ : Type}
    (ejecutar : σ → String → SalidaEjecucion × σ) (conexion : σ)
    (consulta : String) (h : esSelect consulta = true) :
    (∀ e conexion',
        ejecutar conexion consulta = (SalidaEjecucion.excepcion e, conexion') →
        (ejecutar_sql ejecutar conexion consulta).1 =
          [Valor.cadena ("Error al ejecutar la consulta SQL: " ++ e)]) ∧
    (∀ conexion',
        ejecutar conexion consulta = (SalidaEjecucion.filas [], conexion') →
        (ejecutar_sql ejecutar conexion consulta).1 =
          [Valor.cadena "No se encontraron resultados."]) ∧
    (∀ rs conexion', rs ≠ [] →
        ejecutar conexion consulta = (SalidaEjecucion.filas rs, conexion') →
        (ejecutar_sql ejecutar conexion consulta).1 = rs.map Valor.fila) := by
  refine ⟨?_, ?_, ?_⟩
  · intro e conexion' he
    simp [ejecutar_sql, he]
  · intro conexion' he
    simp [ejecutar_sql, he, h]
  · intro rs conexion' hrs he
    simp [ejecutar_sql, he, h, List.length_eq_zero, hrs]

/-- C6 witness: the contract evaluated on a concrete SELECT returning one
row. -/
theorem ejecutar_sql_select_contrato_witness :
    esSelect "SELECT COUNT(*) FROM users;" = true ∧
    (ejecutar_sql (fun (u : Unit) _ => (SalidaEjecucion.filas [[42]], u)) ()
        "SELECT COUNT(*) FROM users;").1 = [Valor.fila [42]] := by
  refine ⟨by decide, ?_⟩
  exact (ejecutar_sql_select_contrato
      (fun (u : Unit) _ => (SalidaEjecucion.filas [[42]], u)) ()
      "SELECT COUNT(*) FROM users;" (by decide)).2.2 [[42]] () (by decide) rfl

/-- C1 (code bug): the source calls `cursor.execute(consulta)` BEFORE the
`select`-prefix test, so `"DELETE FROM users;"` reaches the connection's
mutation path even though the fixed rejection sentinel is returned: under
the concrete connection model `ejecucionBorrado`, the same call that
reports the rejection sentinel leaves the users table empty. -/
theorem ejecutar_sql_ejecuta_antes_del_filtro :
    ejecutar_sql ejecucionBorrado [[1], [2]] "DELETE FROM users;" =
      ([Valor.cadena "La consulta SQL debe ser un SELECT."], []) ∧
    ([[1], [2]] : List (List Int)) ≠ [] := by
  refine ⟨?_, by decide⟩
  decide

/-- Helper: a left fold that appends `g x` at each step equals the initial
accumulator followed by the concatenation of the rendered pieces. -/
theorem foldl_append_unir {α : Type} (f : String → α → String) (g : α → String)
    (hf : ∀ d x, f d x = d ++ g x) :
    ∀ (l : List α) (init : String), l.foldl f init = init ++ unir (l.map g) := by
  intro l
  induction l with
  | nil => intro init; simp [unir, String.append_empty]
  | cons a t ih =>
      intro init
      rw [List.map_cons, List.foldl_cons, hf, ih, unir, String.append_assoc]

/-- Helper: the accumulator-style `obtener_descripcion_esquema` renders the
header line followed by one block per table (sub-header, one indented
bullet per column, closing blank line). -/
theorem descripcion_esquema_render (cat : Catalogo) (bd : String) :
    obtener_descripcion_esquema cat bd =
      "Esquema de " ++ bd ++ ":\n" ++
        unir ((consultaTablas cat).map (fun tabla =>
          "Tabla: " ++ tabla ++ "\nColumnas:\n" ++
            (unir ((consultaColumnas cat tabla).map
              (fun ct => "  - " ++ ct.1 ++ " (" ++ ct.2 ++ ")\n")) ++ "\n"))) := by
  unfold obtener_descripcion_esquema
  rw [foldl_append_unir _
      (fun tabla => "Tabla: " ++ tabla ++ "\nColumnas:\n" ++
        (unir ((consultaColumnas cat tabla).map
          (fun ct => "  - " ++ ct.1 ++ " (" ++ ct.2 ++ ")\n")) ++ "\n"))
      ?hf]
  case hf =>
    intro d tabla
    rw [foldl_append_unir _
        (fun ct => "  - " ++ ct.1 ++ " (" ++ ct.2 ++ ")\n")
        (fun d' ct => by simp [String.append_assoc])]
    simp [String.append_assoc]

/-- C8: `obtener_descripcion_esquema` renders a header line containing the
database name, then for each table the sub-header `Tabla: ...` with a
`Columnas:` line and one indented bullet `  - name (type)` per column, each
table block closed by a blank line (so consecutive tables are separated by
one). -/
theorem descripcion_esquema_formato (cat : Catalogo) (bd : String) :
    obtener_descripcion_esquema cat bd =
      "Esquema de " ++ bd ++ ":\n" ++
        unir ((consultaTablas cat).map (fun tabla =>
          "Tabla: " ++ tabla ++ "\nColumnas:\n" ++
            (unir ((consultaColumnas cat tabla).map
              (fun ct => "  - " ++ ct.1 ++ " (" ++ ct.2 ++ ")\n")) ++ "\n"))) :=
  descripcion_esquema_render cat bd

/-- C9: the two catalog queries are not filtered by schema or database, so
for a fixed catalog the outputs of `obtener_descripcion_esquema` for two
database-name arguments differ only in the header line: one common body
follows both headers. -/
theorem descripcion_esquema_independiente_del_nombre
    (cat : Catalogo) (d1 d2 : String) :
    ∃ cuerpo : String,
      obtener_descripcion_esquema cat d1 = "Esquema de " ++ d1 ++ ":\n" ++ cuerpo ∧
      obtener_descripcion_esquema cat d2 = "Esquema de " ++ d2 ++ ":\n" ++ cuerpo :=
  ⟨_, descripcion_esquema_render cat d1, descripcion_esquema_render cat d2⟩

/-- C7 counterexample: a cycle whose question is neither the exit sentinel
nor blank, but whose synthesized SQL post-processes to the empty string,
re-loops after one model call without executing, formatting, or reporting
anything — the loop does not always run the full pipeline on a non-exit,
non-blank question. -/
theorem ciclo_sql_vacio_omite_informe :
    pyLowerStr (pyStripStr "q") ≠ "exit" ∧ pyStripStr "q" ≠ "" ∧
    ciclo "" (fun _ => [Valor.cadena "x"]) "y" "q" =
      ⟨false, [], 1⟩ := by
  refine ⟨by decide, by decide, ?_⟩
  decide

/-- C7 amended: each loop iteration strips the question; on the
case-insensitive exit sentinel it stops; on a blank question it reports
locally with no model call; otherwise SQL synthesis runs (one model call)
and, if the post-processed SQL is empty, the cycle silently re-loops
without executing anything; in the remaining case execution, formatting and
answer synthesis run in order and the SQL, formatted result and
natural-language answer are reported (two model calls). -/
theorem ciclo_contrato (cSql : String) (ejecutar : String → List Valor)
    (cNat : String) (entrada : String) :
    (pyLowerStr (pyStripStr entrada) = "exit" →
        ciclo cSql ejecutar cNat entrada = ⟨true, [], 0⟩) ∧
    (pyLowerStr (pyStripStr entrada) ≠ "exit" → pyStripStr entrada = "" →
        ciclo cSql ejecutar cNat entrada = ⟨false, ["Pregunta vacía."], 0⟩) ∧
    (pyLowerStr (pyStripStr entrada) ≠ "exit" → pyStripStr entrada ≠ "" →
        postprocesar_sql cSql = "" →
        ciclo cSql ejecutar cNat entrada = ⟨false, [], 1⟩) ∧
    (pyLowerStr (pyStripStr entrada) ≠ "exit" → pyStripStr entrada ≠ "" →
        postprocesar_sql cSql ≠ "" →
        ciclo cSql ejecutar cNat entrada =
          ⟨false,
            ["\nSQL Generado:\n" ++ postprocesar_sql cSql ++ "\n",
             "Resultado:\n" ++
               (formatear_resultado (ejecutar (postprocesar_sql cSql))).mostrar ++ "\n",
             "Respuesta:\n" ++ limpiar_markdown cNat ++ "\n"], 2⟩) := by
  refine ⟨?_, ?_, ?_, ?_⟩
  · intro h1
    simp [ciclo, h1]
  · intro h1 h2
    have h1' : pyLowerStr "" ≠ "exit" := by decide
    simp [ciclo, h2, h1']
  · intro h1 h2 h3
    simp [ciclo, h1, h2, h3]
  · intro h1 h2 h3
    simp [ciclo, h1, h2, h3]

/-- C7 witness: the four branches of the cycle contract evaluated on
concrete inputs (exit with surrounding blanks and capitals; a blank
question; an empty model reply; a full pipeline run). -/
theorem ciclo_contrato_witness :
    ciclo "x" (fun _ => ([] : List Valor)) "y" " EXIT " = ⟨true, [], 0⟩ ∧
    ciclo "x" (fun _ => ([] : List Valor)) "y" "   " =
      ⟨false, ["Pregunta vacía."], 0⟩ ∧
    ciclo "```sql\n```" (fun _ => ([] : List Valor)) "y" "q" =
      ⟨false, [], 1⟩ ∧
    ciclo "SELECT 1" (fun _ => [Valor.cadena "ok"]) "**r**" "q" =
      ⟨false,
        ["\nSQL Generado:\nSELECT 1\n", "Resultado:\nok\n", "Respuesta:\nr\n"],
        2⟩ := by
  refine ⟨(ciclo_contrato "x" (fun _ => ([] : List Valor)) "y" " EXIT ").1 (by decide),
    (ciclo_contrato "x" (fun _ => ([] : List Valor)) "y" "   ").2.1 (by decide) (by decide),
    (ciclo_contrato "```sql\n```" (fun _ => ([] : List Valor)) "y" "q").2.2.1
      (by decide) (by decide) (by decide), ?_⟩
  rw [(ciclo_contrato "SELECT 1" (fun _ => [Valor.cadena "ok"]) "**r**" "q").2.2.2
      (by decide) (by decide) (by decide)]
  decide

/-- Helper: the head of `dropWhile p l`, when present, falsifies `p`. -/
theorem head_dropWhile_false (p : Char → Bool) (l : List Char) (c : Char)
    (h : (l.dropWhile p).head? = some c) : p c = false := by
  have h2 := List.head?_dropWhile_not p l
  rw [h] at h2
  exact h2

/-- Helper: a list whose head does not satisfy `p` is unchanged by
`dropWhile p`. -/
theorem dropWhile_eq_self_de_cabeza (p : Char → Bool) (l : List Char)
    (h : ∀ c, l.head? = some c → p c = false) : l.dropWhile p = l := by
  cases l with
  | nil => rfl
  | cons a t =>
      rw [List.dropWhile_cons, h a rfl]
      simp

/-- Helper: the output of `pyStrip` begins with the same character as the
output of the leading `dropWhile`, hence with a non-whitespace one. -/
theorem pyStrip_cabeza (cs : List Char) (c : Char)
    (h : (pyStrip cs).head? = some c) : pyIsSpace c = false := by
  obtain ⟨t, ht⟩ := List.dropWhile_suffix (l := (cs.dropWhile pyIsSpace).reverse) pyIsSpace
  have ha : cs.dropWhile pyIsSpace = pyStrip cs ++ t.reverse := by
    have h2 := congrArg List.reverse ht
    rw [List.reverse_append, List.reverse_reverse] at h2
    exact h2.symm
  have h3 : (cs.dropWhile pyIsSpace).head? = some c := by
    rw [ha, List.head?_append, h]
    rfl
  exact head_dropWhile_false pyIsSpace cs c h3

/-- Helper: `pyStrip` (Python `str.strip()`) is idempotent. -/
theorem pyStrip_idem (cs : List Char) : pyStrip (pyStrip cs) = pyStrip cs := by
  have h1 : (pyStrip cs).dropWhile pyIsSpace = pyStrip cs :=
    dropWhile_eq_self_de_cabeza _ _ (fun c hc => pyStrip_cabeza cs c hc)
  have h2 : (pyStrip cs).reverse.dropWhile pyIsSpace = (pyStrip cs).reverse := by
    apply dropWhile_eq_self_de_cabeza
    intro c hc
    have h4 : (pyStrip cs).reverse = ((cs.dropWhile pyIsSpace).reverse).dropWhile pyIsSpace := by
      unfold pyStrip
      rw [List.reverse_reverse]
    rw [h4] at hc
    exact head_dropWhile_false _ _ _ hc
  show ((((pyStrip cs).dropWhile pyIsSpace).reverse).dropWhile pyIsSpace).reverse = pyStrip cs
  rw [h1, h2, List.reverse_reverse]

/-- Helper: every character of `pyStrip cs` occurs in `cs`. -/
theorem mem_pyStrip {c : Char} {cs : List Char} (h : c ∈ pyStrip cs) : c ∈ cs := by
  unfold pyStrip at h
  rw [List.mem_reverse] at h
  have h2 := (List.dropWhile_sublist pyIsSpace).subset h
  rw [List.mem_reverse] at h2
  exact (List.dropWhile_sublist pyIsSpace).subset h2

/-- Helper: a `re.sub` pass for a Markdown pattern whose delimiter opens
with a character absent from the text leaves the text unchanged. -/
theorem subMd_sin_delim (d0 : Char) (ds : List Char) :
    ∀ (fuel : Nat) (cs : List Char), (∀ c ∈ cs, c ≠ d0) →
      subMd (d0 :: ds) fuel cs = cs := by
  intro fuel
  induction fuel with
  | zero => intro cs _; rfl
  | succ n ih =>
      intro cs h
      cases cs with
      | nil => rfl
      | cons c rest =>
          have hp : (d0 :: ds).isPrefixOf (c :: rest) = false := by
            by_contra hc
            rw [Bool.not_eq_false, List.isPrefixOf_iff_prefix] at hc
            exact h c (List.mem_cons_self c rest) (List.cons_prefix_cons.mp hc).1.symm
          simp only [subMd, hp, Bool.false_eq_true, if_false]
          rw [ih rest (fun c' hc' => h c' (List.mem_cons_of_mem c hc'))]

/-- C4 counterexample: `limpiar_markdown` is not idempotent.  On the input
"``x``" the lazy inline-code pattern takes the first backtick as opener,
the group "`x", and the third backtick as closer, yielding "`x`"; a second
application strips that further to "x". -/
theorem limpiar_markdown_no_idempotente :
    limpiar_markdown "``x``" = "`x`" ∧
    limpiar_markdown (limpiar_markdown "``x``") = "x" ∧
    limpiar_markdown (limpiar_markdown "``x``") ≠ limpiar_markdown "``x``" := by
  refine ⟨?_, ?_, ?_⟩ <;> decide

/-- C4 amended: on every input containing none of the Markdown marker
characters `*`, `_` and backtick, each substitution pass is the identity,
`limpiar_markdown` reduces to `str.strip()`, and applying it twice equals
applying it once. -/
theorem limpiar_markdown_idempotente_sin_marcadores (texto : String)
    (h : ∀ c ∈ texto.data, c ≠ '*' ∧ c ≠ '_' ∧ c ≠ '`') :
    limpiar_markdown (limpiar_markdown texto) = limpiar_markdown texto := by
  have hlim : ∀ (s : String), (∀ c ∈ s.data, c ≠ '*' ∧ c ≠ '_' ∧ c ≠ '`') →
      limpiar_markdown s = String.mk (pyStrip s.data) := by
    intro s hs
    unfold limpiar_markdown subMarkdown
    rw [subMd_sin_delim '*' ['*'] _ _ (fun c hc => (hs c hc).1)]
    rw [subMd_sin_delim '_' ['_'] _ _ (fun c hc => (hs c hc).2.1)]
    rw [subMd_sin_delim '*' [] _ _ (fun c hc => (hs c hc).1)]
    rw [subMd_sin_delim '_' [] _ _ (fun c hc => (hs c hc).2.1)]
    rw [subMd_sin_delim '`' [] _ _ (fun c hc => (hs c hc).2.2)]
  rw [hlim texto h]
  rw [hlim (String.mk (pyStrip texto.data)) (fun c hc => h c (mem_pyStrip hc))]
  show String.mk (pyStrip (pyStrip texto.data)) = String.mk (pyStrip texto.data)
  rw [pyStrip_idem]

/-- C4 witness: the restricted idempotence evaluated on a concrete
marker-free input. -/
theorem limpiar_markdown_idempotente_sin_marcadores_witness :
    limpiar_markdown (limpiar_markdown "  hola mundo  ") =
      limpiar_markdown "  hola mundo  " :=
  limpiar_markdown_idempotente_sin_marcadores "  hola mundo  " (by decide)

/-- Helper: every match of the fence alternation consumes at least one
character, so the remainder is strictly shorter. -/
theorem matchAlt_length {cs rem : List Char} (h : matchAlt cs = some rem) :
    rem.length < cs.length := by
  unfold matchAlt at h
  by_cases h1 : aperturaCerca.isPrefixOf cs = true
  · rw [if_pos h1, Option.some_inj] at h
    have h6 : 6 ≤ cs.length := by
      rw [ List.isPrefixOf_iff_prefix] at h1
      exact h1.length_le
    have hr : rem.length ≤ (cs.drop 6).length := by
      rw [← h]
      exact (List.dropWhile_sublist pyIsSpace).length_le
    rw [List.length_drop] at hr
    omega
  · rw [if_neg h1] at h
    by_cases h2 : tresAcentos.isPrefixOf (cs.dropWhile pyIsSpace) = true
    · rw [if_pos h2, Option.some_inj] at h
      have h3 : 3 ≤ (cs.dropWhile pyIsSpace).length := by
        rw [ List.isPrefixOf_iff_prefix] at h2
        exact h2.length_le
      have h4 : (cs.dropWhile pyIsSpace).length ≤ cs.length :=
        (List.dropWhile_sublist pyIsSpace).length_le
      have hr : rem.length = (cs.dropWhile pyIsSpace).length - 3 := by
        rw [← h, List.length_drop]
      omega
    · rw [if_neg h2] at h
      cases h

/-- Helper: `fenceScanF` does not depend on the fuel once the fuel covers
the length of the input. -/
theorem fenceScanF_fuel : ∀ (f1 f2 : Nat) (cs : List Char),
    cs.length ≤ f1 → cs.length ≤ f2 → fenceScanF f1 cs = fenceScanF f2 cs := by
  intro f1
  induction f1 with
  | zero =>
      intro f2 cs h1 _
      have hcs : cs = [] := List.length_eq_zero.mp (Nat.le_zero.mp h1)
      subst hcs
      cases f2 <;> rfl
  | succ n ih =>
      intro f2 cs h1 h2
      cases cs with
      | nil => cases f2 <;> rfl
      | cons c rest =>
          cases f2 with
          | zero => simp at h2
          | succ m =>
              show fenceScanF (n + 1) (c :: rest) = fenceScanF (m + 1) (c :: rest)
              simp only [fenceScanF]
              cases hm : matchAlt (c :: rest) with
              | some rem =>
                  have hlen := matchAlt_length hm
                  simp only [List.length_cons] at h1 h2 hlen
                  exact ih m rem (by omega) (by omega)
              | none =>
                  simp only [List.length_cons] at h1 h2
                  rw [ih m rest (by omega) (by omega)]

/-- Helper: the step equation of `fenceScan` at a non-empty input. -/
theorem fenceScan_cons (c : Char) (rest : List Char) :
    fenceScan (c :: rest) =
      match matchAlt (c :: rest) with
      | some rem => fenceScan rem
      | none => c :: fenceScan rest := by
  show fenceScanF (rest.length + 1) (c :: rest) = _
  simp only [fenceScanF]
  cases hm : matchAlt (c :: rest) with
  | some rem =>
      have hlen := matchAlt_length hm
      simp only [List.length_cons] at hlen
      exact fenceScanF_fuel rest.length rem.length rem (by omega) (le_refl _)
  | none => rfl

/-- Helper: a pattern of non-whitespace characters matches as a prefix of
`a ++ cola` exactly when it matches as a prefix of `a`, provided `cola`
opens with a whitespace character: the pattern can never straddle the
boundary. -/
theorem isPrefixOf_append_cola (cola : List Char)
    (hcola : ∀ c, cola.head? = some c → pyIsSpace c = true) :
    ∀ (pat : List Char), (∀ c ∈ pat, pyIsSpace c = false) →
      ∀ (a : List Char), pat.isPrefixOf (a ++ cola) = pat.isPrefixOf a := by
  have hnl : ∀ l : List Char, List.isPrefixOf [] l = true := by
    intro l
    cases l <;> rfl
  intro pat
  induction pat with
  | nil => intro _ a; rw [hnl (a ++ cola), hnl a]
  | cons p ps ih =>
      intro hpat a
      cases a with
      | nil =>
          rw [List.nil_append]
          cases hc : cola with
          | nil => rfl
          | cons t ts =>
              have ht : pyIsSpace t = true := hcola t (by rw [hc]; rfl)
              have hp : pyIsSpace p = false := hpat p (List.mem_cons_self _ _)
              have hne : (p == t) = false := by
                rw [beq_eq_false_iff_ne]
                intro he
                rw [he, ht] at hp
                cases hp
              show (p == t && ps.isPrefixOf ts) = List.isPrefixOf (p :: ps) []
              rw [hne, Bool.false_and]
              rfl
      | cons b bs =>
          show (p == b && ps.isPrefixOf (bs ++ cola)) = (p == b && ps.isPrefixOf bs)
          rw [ih (fun c hc => hpat c (List.mem_cons_of_mem _ hc)) bs]

/-- Helper: `dropWhile` removes a leading block that satisfies the
predicate throughout. -/
theorem dropWhile_append_todo (p : Char → Bool) (w l : List Char)
    (hw : ∀ c ∈ w, p c = true) : (w ++ l).dropWhile p = l.dropWhile p := by
  induction w with
  | nil => rfl
  | cons a t ih =>
      rw [List.cons_append, List.dropWhile_cons, hw a (List.mem_cons_self _ _)]
      simp only [if_true]
      exact ih (fun c hc => hw c (List.mem_cons_of_mem _ hc))

/-- Helper: the last element of a suffix is the last element of the list. -/
theorem ultimo_de_sufijo {l' l : List Char} {c : Char} (h : l' <:+ l)
    (hc : l'.getLast? = some c) : l.getLast? = some c := by
  obtain ⟨t, rfl⟩ := h
  rw [List.getLast?_append, hc]
  rfl

/-- Helper: a last-element property transfers from a list to any of its
suffixes. -/
theorem ultimo_prop_de_sufijo {a b : List Char} (h : b <:+ a)
    (ha : ∀ c, a.getLast? = some c → pyIsSpace c = false) :
    ∀ c, b.getLast? = some c → pyIsSpace c = false :=
  fun c hc => ha c (ultimo_de_sufijo h hc)

/-- Helper: the last element of a non-empty list is a member of it. -/
theorem mem_de_ultimo {a : List Char} {c : Char} (hc : a.getLast? = some c) :
    c ∈ a := by
  have h2 : c ∈ a.reverse := by
    rw [← List.head?_reverse] at hc
    exact List.mem_of_mem_head? (by rw [hc]; rfl)
  exact List.mem_reverse.mp h2

/-- Helper: a non-empty list whose last element is not whitespace does not
vanish under a leading `dropWhile pyIsSpace`. -/
theorem dropWhile_ne_nil_ultimo {a : List Char} (hne : a ≠ [])
    (hlast : ∀ c, a.getLast? = some c → pyIsSpace c = false) :
    a.dropWhile pyIsSpace ≠ [] := by
  intro h
  have hall := List.dropWhile_eq_nil_iff.mp h
  obtain ⟨c, hc⟩ := Option.isSome_iff_exists.mp (List.getLast?_isSome.mpr hne)
  have h2 := hall c (mem_de_ultimo hc)
  rw [hlast c hc] at h2
  cases h2

/-- Helper: a non-empty whitespace run followed by the bare closing
backticks is consumed by the fence sub in one match, leaving nothing. -/
theorem fenceScan_ws_acentos (w : List Char) (hw : ∀ c ∈ w, pyIsSpace c = true)
    (hne : w ≠ []) : fenceScan (w ++ tresAcentos) = [] := by
  cases w with
  | nil => exact absurd rfl hne
  | cons c0 w' =>
      have hc0 : pyIsSpace c0 = true := hw c0 (List.mem_cons_self _ _)
      rw [List.cons_append, fenceScan_cons]
      have hap : aperturaCerca.isPrefixOf (c0 :: (w' ++ tresAcentos)) = false := by
        show ('`' == c0 && List.isPrefixOf ['`', '`', 's', 'q', 'l'] (w' ++ tresAcentos)) = false
        have hne2 : ('`' == c0) = false := by
          rw [beq_eq_false_iff_ne]
          intro he
          rw [← he] at hc0
          cases hc0
        rw [hne2, Bool.false_and]
      have hresto : (c0 :: (w' ++ tresAcentos)).dropWhile pyIsSpace = tresAcentos := by
        rw [← List.cons_append]
        rw [dropWhile_append_todo pyIsSpace (c0 :: w') tresAcentos hw]
        decide
      have hm : matchAlt (c0 :: (w' ++ tresAcentos)) = some [] := by
        unfold matchAlt
        rw [if_neg (by rw [hap]; exact Bool.false_ne_true)]
        rw [hresto]
        decide
      rw [hm]
      rfl

/-- Helper: `dropWhile` distributes over an append whose left part does not
vanish. -/
theorem dropWhile_append_izq (p : Char → Bool) (x y : List Char)
    (hx : x.dropWhile p ≠ []) : (x ++ y).dropWhile p = x.dropWhile p ++ y := by
  rw [List.dropWhile_append]
  cases hE : (x.dropWhile p).isEmpty with
  | false => rw [if_neg Bool.false_ne_true]
  | true => exact absurd (List.isEmpty_iff.mp hE) hx

/-- Helper (heart of the fence round trip): appending a non-empty
whitespace run followed by the bare closing backticks to a text whose last
character is not whitespace leaves the scanner's output unchanged — every
match inside the text is unaffected by the appended part (no alternative
can straddle the boundary, which opens with whitespace), and the appended
part itself is swallowed by one final match. -/
theorem fenceScan_append_cola (w : List Char) (hw : ∀ c ∈ w, pyIsSpace c = true)
    (hne : w ≠ []) :
    ∀ (n : Nat) (a : List Char), a.length ≤ n →
      (∀ c, a.getLast? = some c → pyIsSpace c = false) →
      fenceScan (a ++ (w ++ tresAcentos)) = fenceScan a := by
  have hcola : ∀ c, (w ++ tresAcentos).head? = some c → pyIsSpace c = true := by
    intro c hc
    cases w with
    | nil => exact absurd rfl hne
    | cons c0 w' =>
        rw [List.cons_append] at hc
        simp only [List.head?_cons, Option.some_inj] at hc
        rw [← hc]
        exact hw c0 (List.mem_cons_self _ _)
  have hbase : fenceScan (w ++ tresAcentos) = [] := fenceScan_ws_acentos w hw hne
  intro n
  induction n with
  | zero =>
      intro a ha _
      have hcs : a = [] := List.length_eq_zero.mp (Nat.le_zero.mp ha)
      subst hcs
      rw [List.nil_append, hbase]
      rfl
  | succ n ih =>
      intro a ha hlast
      cases a with
      | nil =>
          rw [List.nil_append, hbase]
          rfl
      | cons c rest =>
          cases hap : aperturaCerca.isPrefixOf (c :: rest) with
          | true =>
              have hap2 : aperturaCerca.isPrefixOf ((c :: rest) ++ (w ++ tresAcentos)) = true := by
                rw [isPrefixOf_append_cola (w ++ tresAcentos) hcola aperturaCerca
                  (by decide) (c :: rest)]
                exact hap
              have h6 : 6 ≤ (c :: rest).length := by
                rw [ List.isPrefixOf_iff_prefix] at hap
                exact hap.length_le
              have hmcore : matchAlt (c :: rest) =
                  some (((c :: rest).drop 6).dropWhile pyIsSpace) := by
                unfold matchAlt
                rw [if_pos hap]
              have hmfull : matchAlt (c :: (rest ++ (w ++ tresAcentos))) =
                  some (((c :: rest).drop 6 ++ (w ++ tresAcentos)).dropWhile pyIsSpace) := by
                unfold matchAlt
                rw [← List.cons_append, if_pos hap2, List.drop_append_of_le_length h6]
              rw [List.cons_append, fenceScan_cons c (rest ++ (w ++ tresAcentos)), hmfull,
                fenceScan_cons c rest, hmcore]
              show fenceScan (((c :: rest).drop 6 ++ (w ++ tresAcentos)).dropWhile pyIsSpace) =
                fenceScan (((c :: rest).drop 6).dropWhile pyIsSpace)
              by_cases hb : ((c :: rest).drop 6).dropWhile pyIsSpace = []
              · have hbnil : (c :: rest).drop 6 = [] := by
                  by_contra hbne
                  exact (dropWhile_ne_nil_ultimo hbne
                    (ultimo_prop_de_sufijo (List.drop_suffix 6 (c :: rest)) hlast)) hb
                rw [hbnil, List.nil_append, dropWhile_append_todo pyIsSpace w tresAcentos hw]
                decide
              · rw [dropWhile_append_izq pyIsSpace ((c :: rest).drop 6) (w ++ tresAcentos) hb]
                apply ih
                · have l1 : (((c :: rest).drop 6).dropWhile pyIsSpace).length ≤
                      ((c :: rest).drop 6).length := (List.dropWhile_sublist _).length_le
                  have l2 : ((c :: rest).drop 6).length = (c :: rest).length - 6 :=
                    List.length_drop _ _
                  simp only [List.length_cons] at ha l2 h6
                  omega
                · exact ultimo_prop_de_sufijo
                    ((List.dropWhile_suffix _).trans (List.drop_suffix 6 (c :: rest))) hlast
          | false =>
              have hap2 : aperturaCerca.isPrefixOf ((c :: rest) ++ (w ++ tresAcentos)) = false := by
                rw [isPrefixOf_append_cola (w ++ tresAcentos) hcola aperturaCerca
                  (by decide) (c :: rest)]
                exact hap
              have hrne : (c :: rest).dropWhile pyIsSpace ≠ [] :=
                dropWhile_ne_nil_ultimo (List.cons_ne_nil c rest) hlast
              have hfull2 : ((c :: rest) ++ (w ++ tresAcentos)).dropWhile pyIsSpace =
                  (c :: rest).dropWhile pyIsSpace ++ (w ++ tresAcentos) :=
                dropWhile_append_izq pyIsSpace (c :: rest) (w ++ tresAcentos) hrne
              have hticks : tresAcentos.isPrefixOf
                    ((c :: rest).dropWhile pyIsSpace ++ (w ++ tresAcentos)) =
                  tresAcentos.isPrefixOf ((c :: rest).dropWhile pyIsSpace) :=
                isPrefixOf_append_cola (w ++ tresAcentos) hcola tresAcentos (by decide) _
              cases ht : tresAcentos.isPrefixOf ((c :: rest).dropWhile pyIsSpace) with
              | true =>
                  have h3 : 3 ≤ ((c :: rest).dropWhile pyIsSpace).length := by
                    rw [ List.isPrefixOf_iff_prefix] at ht
                    exact ht.length_le
                  have hmcore : matchAlt (c :: rest) =
                      some (((c :: rest).dropWhile pyIsSpace).drop 3) := by
                    unfold matchAlt
                    rw [if_neg (by rw [hap]; exact Bool.false_ne_true), if_pos ht]
                  have hmfull : matchAlt (c :: (rest ++ (w ++ tresAcentos))) =
                      some (((c :: rest).dropWhile pyIsSpace).drop 3 ++ (w ++ tresAcentos)) := by
                    unfold matchAlt
                    rw [← List.cons_append, if_neg (by rw [hap2]; exact Bool.false_ne_true),
                      hfull2, if_pos (by rw [hticks]; exact ht),
                      List.drop_append_of_le_length h3]
                  rw [List.cons_append, fenceScan_cons c (rest ++ (w ++ tresAcentos)), hmfull,
                    fenceScan_cons c rest, hmcore]
                  show fenceScan (((c :: rest).dropWhile pyIsSpace).drop 3 ++ (w ++ tresAcentos)) =
                    fenceScan (((c :: rest).dropWhile pyIsSpace).drop 3)
                  by_cases hb : ((c :: rest).dropWhile pyIsSpace).drop 3 = []
                  · rw [hb, List.nil_append, hbase]
                    rfl
                  · apply ih
                    · have l1 : ((c :: rest).dropWhile pyIsSpace).length ≤ (c :: rest).length :=
                        (List.dropWhile_sublist _).length_le
                      have l2 : (((c :: rest).dropWhile pyIsSpace).drop 3).length =
                          ((c :: rest).dropWhile pyIsSpace).length - 3 := List.length_drop _ _
                      simp only [List.length_cons] at ha l1
                      omega
                    · exact ultimo_prop_de_sufijo
                        ((List.drop_suffix 3 _).trans (List.dropWhile_suffix _)) hlast
              | false =>
                  have hmcore : matchAlt (c :: rest) = none := by
                    unfold matchAlt
                    rw [if_neg (by rw [hap]; exact Bool.false_ne_true),
                      if_neg (by rw [ht]; exact Bool.false_ne_true)]
                  have hmfull : matchAlt (c :: (rest ++ (w ++ tresAcentos))) = none := by
                    unfold matchAlt
                    rw [← List.cons_append, if_neg (by rw [hap2]; exact Bool.false_ne_true),
                      hfull2, if_neg (by rw [hticks, ht]; exact Bool.false_ne_true)]
                  rw [List.cons_append, fenceScan_cons c (rest ++ (w ++ tresAcentos)), hmfull,
                    fenceScan_cons c rest, hmcore]
                  show c :: fenceScan (rest ++ (w ++ tresAcentos)) = c :: fenceScan rest
                  by_cases hr : rest = []
                  · rw [hr, List.nil_append, hbase]
                    rfl
                  · rw [ih rest (by simp only [List.length_cons] at ha; omega)
                      (ultimo_prop_de_sufijo ⟨[c], rfl⟩ hlast)]

/-- Helper: `pyStrip` is the identity on a text that neither begins nor
ends with whitespace. -/
theorem pyStrip_sin_ws_extremos (cs : List Char)
    (h1 : ∀ c, cs.head? = some c → pyIsSpace c = false)
    (h2 : ∀ c, cs.getLast? = some c → pyIsSpace c = false) :
    pyStrip cs = cs := by
  unfold pyStrip
  rw [dropWhile_eq_self_de_cabeza pyIsSpace cs h1]
  rw [dropWhile_eq_self_de_cabeza pyIsSpace cs.reverse
    (fun c hc => h2 c (by rwa [List.head?_reverse] at hc))]
  exact List.reverse_reverse cs

/-- C5: the fence-stripping step of `generar_sql` yields the same result on
a model reply wrapped in markdown code fences (with the `sql` tag) as on
the bare reply: the opening `"```sql"` plus the greedy whitespace that
follows absorbs the fence newline and the reply's leading whitespace —
which on the bare side `strip()` removes — and the trailing whitespace plus
`"```"` is swallowed by the second alternative, while no match inside the
reply can straddle a fence boundary. -/
theorem postprocesar_sql_quita_cercas (r : String) :
    postprocesar_sql ("```sql\n" ++ r ++ "\n```") = postprocesar_sql r := by
  unfold postprocesar_sql
  have hdata : ("```sql\n" ++ r ++ "\n```").data =
      ('`' :: '`' :: '`' :: 's' :: 'q' :: 'l' :: '\n' :: r.data) ++ ['\n', '`', '`', '`'] := by
    rw [String.data_append, String.data_append]
    rfl
  rw [hdata]
  have hstrip : pyStrip
      (('`' :: '`' :: '`' :: 's' :: 'q' :: 'l' :: '\n' :: r.data) ++ ['\n', '`', '`', '`']) =
      ('`' :: '`' :: '`' :: 's' :: 'q' :: 'l' :: '\n' :: r.data) ++ ['\n', '`', '`', '`'] := by
    apply pyStrip_sin_ws_extremos
    · intro c hc
      rw [List.cons_append, List.head?_cons] at hc
      rw [← Option.some_inj.mp hc]
      decide
    · intro c hc
      rw [List.getLast?_append] at hc
      have h4 : (['\n', '`', '`', '`'] : List Char).getLast? = some '`' := by decide
      rw [h4] at hc
      have h5 : (some '`' : Option Char) = some c := hc
      rw [← Option.some_inj.mp h5]
      decide
  rw [hstrip]
  have hscan1 : fenceScan
      (('`' :: '`' :: '`' :: 's' :: 'q' :: 'l' :: '\n' :: r.data) ++ ['\n', '`', '`', '`']) =
      fenceScan ((r.data ++ ['\n', '`', '`', '`']).dropWhile pyIsSpace) := by
    show fenceScan
      ('`' :: '`' :: '`' :: 's' :: 'q' :: 'l' :: '\n' :: (r.data ++ ['\n', '`', '`', '`'])) = _
    rw [fenceScan_cons]
    have hm : matchAlt
        ('`' :: '`' :: '`' :: 's' :: 'q' :: 'l' :: '\n' :: (r.data ++ ['\n', '`', '`', '`'])) =
        some ((r.data ++ ['\n', '`', '`', '`']).dropWhile pyIsSpace) := by
      unfold matchAlt
      have hp : aperturaCerca.isPrefixOf
          ('`' :: '`' :: '`' :: 's' :: 'q' :: 'l' :: '\n' :: (r.data ++ ['\n', '`', '`', '`'])) =
          true := rfl
      rw [if_pos hp]
      show some (('\n' :: (r.data ++ ['\n', '`', '`', '`'])).dropWhile pyIsSpace) = _
      rw [List.dropWhile_cons]
      rw [show pyIsSpace '\n' = true from rfl]
      rw [if_pos rfl]
    rw [hm]
  rw [hscan1]
  cases hm0 : r.data.dropWhile pyIsSpace with
  | nil =>
      have hL : (r.data ++ ['\n', '`', '`', '`']).dropWhile pyIsSpace = tresAcentos := by
        rw [dropWhile_append_todo pyIsSpace r.data _ (List.dropWhile_eq_nil_iff.mp hm0)]
        decide
      have hR : pyStrip r.data = [] := by
        unfold pyStrip
        rw [hm0]
        rfl
      rw [hL, hR]
      decide
  | cons c0 m' =>
      have hsplitr : r.data.takeWhile pyIsSpace ++ (c0 :: m') = r.data := by
        rw [← hm0]
        exact List.takeWhile_append_dropWhile pyIsSpace r.data
      have hc0 : pyIsSpace c0 = false :=
        head_dropWhile_false pyIsSpace r.data c0 (by rw [hm0]; rfl)
      have hL : (r.data ++ ['\n', '`', '`', '`']).dropWhile pyIsSpace =
          (c0 :: m') ++ ['\n', '`', '`', '`'] := by
        conv_lhs => rw [← hsplitr]
        rw [List.append_assoc]
        rw [dropWhile_append_todo pyIsSpace (r.data.takeWhile pyIsSpace) _
          (fun c hc => List.mem_takeWhile_imp hc)]
        rw [List.cons_append, List.dropWhile_cons, hc0]
        rw [if_neg Bool.false_ne_true]
      have hsplitm : ((c0 :: m').reverse.dropWhile pyIsSpace).reverse ++
          ((c0 :: m').reverse.takeWhile pyIsSpace).reverse = c0 :: m' := by
        have h := congrArg List.reverse
          (List.takeWhile_append_dropWhile pyIsSpace (c0 :: m').reverse)
        rw [List.reverse_append, List.reverse_reverse] at h
        exact h
      have hassemble : (c0 :: m') ++ ['\n', '`', '`', '`'] =
          ((c0 :: m').reverse.dropWhile pyIsSpace).reverse ++
            ((((c0 :: m').reverse.takeWhile pyIsSpace).reverse ++ ['\n']) ++ tresAcentos) := by
        conv_lhs => rw [← hsplitm]
        rw [List.append_assoc, List.append_assoc]
        rfl
      have hw2 : ∀ c ∈ ((c0 :: m').reverse.takeWhile pyIsSpace).reverse ++ ['\n'],
          pyIsSpace c = true := by
        intro c hc
        rcases List.mem_append.mp hc with h | h
        · rw [List.mem_reverse] at h
          exact List.mem_takeWhile_imp h
        · rw [List.mem_singleton.mp h]
          rfl
      have hne2 : ((c0 :: m').reverse.takeWhile pyIsSpace).reverse ++ ['\n'] ≠ [] := by
        intro h
        cases (List.append_eq_nil.mp h).2
      have hcore_last : ∀ c,
          (((c0 :: m').reverse.dropWhile pyIsSpace).reverse).getLast? = some c →
          pyIsSpace c = false := by
        intro c hc
        rw [List.getLast?_reverse] at hc
        exact head_dropWhile_false pyIsSpace (c0 :: m').reverse c hc
      have hkey := fenceScan_append_cola
        (((c0 :: m').reverse.takeWhile pyIsSpace).reverse ++ ['\n']) hw2 hne2
        (((c0 :: m').reverse.dropWhile pyIsSpace).reverse).length
        (((c0 :: m').reverse.dropWhile pyIsSpace).reverse)
        (le_refl _) hcore_last
      have hR : pyStrip r.data = ((c0 :: m').reverse.dropWhile pyIsSpace).reverse := by
        unfold pyStrip
        rw [hm0]
      rw [hL, hassemble, hkey, hR]
